import Mathlib

/-!
Verification of the Mini Task Manager sampling/aggregation core.

The development shallowly embeds the pure logic of the two source files of
this repository (`src/git.py`, the extended task manager, is the authority;
`src/main.py` is the earlier reduced variant).  Machine floats from the
metrics provider only ever get compared, divided by 1024, rounded and
stringified here, so they are modelled exactly: percentages as `Int`
(integral float convention, with Python `str` of an integral float
rendered as `"<n>.0"`) and byte counts as `ℚ`.  Fallible provider calls
are modelled as `Except` values; a Python `try/except` around a call
corresponds to matching on that `Except`.
-/

set_option maxRecDepth 4000

namespace TaskManagerModel

/-- One record produced by `psutil.process_iter([...])` with the field set
requested in `refresh_processes`.  `none` models an attribute that the
provider could not supply (`p.info.get(...)` returning `None`). -/
structure ProcInfo where
  pid : Nat
  name : Option String := none
  username : Option String := none
  cpu_percent : Option Int := none
  memory_percent : Option Int := none
  num_threads : Option Nat := none
  create_time : Option Int := none
  status : Option String := none
  io_counters : Option (Nat × Nat) := none
  exe : Option String := none
  cmdline : Option (List String) := none
  nice : Option Int := none
deriving DecidableEq

/-! ### `human_bytes` (src/git.py lines 41-53) -/

/-- The unit table `[B, KB, MB, GB, TB]` of `human_bytes`. -/
def humanUnits : List String := ["B", "KB", "MB", "GB", "TB"]

/-- The scaling loop `while n >= step and i < len(units)-1: n /= step; i += 1`
of `human_bytes` (`step = 1024`, `len(units)-1 = 4`). -/
def scaleLoop (n : ℚ) (i : Nat) : ℚ × Nat :=
  if 1024 ≤ n ∧ i < 4 then scaleLoop (n / 1024) (i + 1) else (n, i)
termination_by 4 - i
decreasing_by omega

/-- Nearest integer with ties to even, as used by CPython float formatting. -/
def roundHalfEven (q : ℚ) : ℤ :=
  let f := ⌊q⌋
  if q - f > 1/2 then f + 1
  else if q - f < 1/2 then f
  else if f % 2 = 0 then f else f + 1

/-- Zero-padded two-digit fraction part. -/
def pad2 (n : Nat) : String := if n < 10 then "0" ++ toString n else toString n

/-- Python `f"{q:.2f}"` on an exact (rational) value. -/
def fmtFixed2 (q : ℚ) : String :=
  if q < 0 then
    let c := roundHalfEven (-q * 100)
    "-" ++ toString (c / 100) ++ "." ++ pad2 (c % 100).toNat
  else
    let c := roundHalfEven (q * 100)
    toString (c / 100) ++ "." ++ pad2 (c % 100).toNat

/-- Function `human_bytes` from src/git.py.  The argument is `none` when the
`float(n)` conversion raises (non-numeric input), which the except-branch
turns into the literal `"0 B"`. -/
def human_bytes (x : Option ℚ) : String :=
  match x with
  | none => "0 B"
  | some n =>
    let p := scaleLoop n 0
    fmtFixed2 p.1 ++ " " ++ humanUnits.getD p.2 "B"

theorem scaleLoop_snd_le (n : ℚ) (i : Nat) (h : i ≤ 4) : (scaleLoop n i).2 ≤ 4 := by
  rw [scaleLoop]
  split
  · next hc => exact scaleLoop_snd_le (n / 1024) (i + 1) (by omega)
  · simpa using h
termination_by 4 - i
decreasing_by omega

/-- Claim C10: `human_bytes` is total: every output is of the shape
`"<number> <unit>"` with the unit drawn from `{B, KB, MB, GB, TB}`,
non-numeric input yields exactly `"0 B"`, and the scaling loop terminates
with the unit index still inside the table (at most 4). -/
theorem human_bytes_total (x : Option ℚ) :
    (∃ num unit, human_bytes x = num ++ " " ++ unit ∧ unit ∈ humanUnits) ∧
    human_bytes none = "0 B" ∧
    (∀ n : ℚ, (scaleLoop n 0).2 ≤ 4) := by
  refine ⟨?_, rfl, fun n => scaleLoop_snd_le n 0 (by omega)⟩
  match x with
  | none => exact ⟨"0", "B", rfl, by simp [humanUnits]⟩
  | some n =>
    refine ⟨fmtFixed2 (scaleLoop n 0).1, humanUnits.getD (scaleLoop n 0).2 "B", rfl, ?_⟩
    have h4 : (scaleLoop n 0).2 ≤ 4 := scaleLoop_snd_le n 0 (by omega)
    have hlt : (scaleLoop n 0).2 < humanUnits.length := by
      simp only [humanUnits, List.length]
      omega
    rw [List.getD_eq_getElem humanUnits "B" hlt]
    exact List.getElem_mem hlt

/-! ### `set_priority_by_value` (src/git.py lines 680-707) -/

/-- Unix branch of `TaskManager.set_priority_by_value`: the chain
`if label == "Low": p.nice(19) elif "Normal": p.nice(0)
elif "High": p.nice(-5) else: p.nice(-20)`. -/
def unixNiceness (label : String) : Int :=
  if label = "Low" then 19
  else if label = "Normal" then 0
  else if label = "High" then -5
  else -20

/-- Windows branch: `mapping.get(label, NORMAL_PRIORITY_CLASS)` with the
psutil priority-class constants (IDLE=64, NORMAL=32, HIGH=128,
REALTIME=256, the `getattr` defaults in the source). -/
def windowsPriorityClass (label : String) : Nat :=
  if label = "Low" then 64
  else if label = "Normal" then 32
  else if label = "High" then 128
  else if label = "Realtime" then 256
  else 32

/-- Claim C2 counterexample: the claim says an unrecognized level such as
`"Bogus"` falls back to Normal (niceness 0) on a Unix-style system, but
the final `else` of the Unix branch applies the Realtime niceness -20. -/
theorem setPriority_bogus_counterexample :
    unixNiceness "Bogus" = -20 ∧ unixNiceness "Bogus" ≠ 0 := by decide

/-- Claim C2 (amended): the level-to-priority mapping is total (every
label maps to one of the four platform values), but only the Windows
branch falls back to Normal on an unrecognized level; the Unix branch
falls back to the Realtime niceness -20, so `SetPriority("Bogus", pid)`
on a Unix-style system sets niceness -20, not 0. -/
theorem setPriority_mapping_amended :
    (∀ label : String, unixNiceness label ∈ ([19, 0, -5, -20] : List Int)) ∧
    (∀ label : String,
      label ≠ "Low" → label ≠ "Normal" → label ≠ "High" →
        unixNiceness label = -20) ∧
    windowsPriorityClass "Bogus" = 32 ∧
    unixNiceness "Bogus" = -20 := by
  refine ⟨fun label => ?_, fun label h1 h2 h3 => ?_, by decide, by decide⟩
  · unfold unixNiceness
    split
    · simp
    · split
      · simp
      · split <;> simp
  · simp [unixNiceness, h1, h2, h3]

/-- Claim C2 witness: the amended fallback evaluated at the concrete
label `"Bogus"`. -/
theorem setPriority_mapping_amended_witness :
    unixNiceness "Bogus" = -20 :=
  setPriority_mapping_amended.2.1 "Bogus" (by decide) (by decide) (by decide)

/-! ### The filter/sort pipeline of `refresh_processes`
(src/git.py lines 352-367) -/

/-- Model of `x.info.get(cpu_percent) or 0`: a missing value (and the falsy 0.0)
becomes 0; this is the sort key of the process table and of the history
top-5 selection. -/
def cpuKey (p : ProcInfo) : Int := p.cpu_percent.getD 0

/-- Stable descending insertion for the cpu key: a new row is placed
after every already-placed row whose key is greater than or equal to its
own, so rows with equal keys keep their arrival order. -/
def insertDesc (x : ProcInfo) : List ProcInfo → List ProcInfo
  | [] => [x]
  | y :: ys => if cpuKey y < cpuKey x then x :: y :: ys else y :: insertDesc x ys

/-- Model of `filtered.sort(key=lambda x: x.info.get(cpu_percent) or 0,
reverse=True)`: CPython `list.sort` is a stable sort, and a stable
descending key sort is extensionally the left-to-right stable insertion
sort below (any two stable sorts for the same total preorder agree). -/
def sortByCpuDesc (l : List ProcInfo) : List ProcInfo :=
  l.foldl (fun acc x => insertDesc x acc) []

/-- Python `needle in hay`: substring containment. -/
def strContains (hay needle : String) : Bool :=
  (List.range (hay.toList.length + 1)).any fun i =>
    decide ((hay.toList.drop i).take needle.toList.length = needle.toList)

/-- Python `str.lower()` (ASCII case folding), over the character list. -/
def pyLower (s : String) : String := (s.toList.map Char.toLower).asString

/-- Python `str.strip()`: remove leading and trailing whitespace. -/
def pyStrip (s : String) : String :=
  ((s.toList.dropWhile Char.isWhitespace).reverse.dropWhile
    Char.isWhitespace).reverse.asString

/-- Model of `self.search_edit.text().lower().strip()`: the raw search text is
lowercased and stripped of surrounding whitespace before matching. -/
def normQuery (s : String) : String := pyStrip (pyLower s)

/-- The retention test of `refresh_processes` applied to one row (for an
already-normalized query `q`):
`not q or q in name or q in pidstr or q in user or q in cmdline`, with
`name = (info name or "").lower()`, `pidstr = str(pid)`,
`user = str(info username or "").lower()`,
`cmdline = " ".join(info cmdline or []).lower()`. -/
def keepRow (q : String) (p : ProcInfo) : Bool :=
  q.isEmpty
  || strContains (pyLower (p.name.getD "")) q
  || strContains (toString p.pid) q
  || strContains (pyLower (p.username.getD "")) q
  || strContains (pyLower (String.intercalate " " (p.cmdline.getD []))) q

/-- The filtering stage of `refresh_processes` for raw search text. -/
def filterRows (raw : String) (snap : List ProcInfo) : List ProcInfo :=
  snap.filter (keepRow (normQuery raw))

/-- The full row pipeline of `refresh_processes`: filter by the search
text, then stable-sort by cpu percent descending. -/
def refreshRows (raw : String) (snap : List ProcInfo) : List ProcInfo :=
  sortByCpuDesc (filterRows raw snap)

/-! #### Sortedness, stability and permutation lemmas for the pipeline -/

theorem insertDesc_mem {a x : ProcInfo} {l : List ProcInfo} :
    a ∈ insertDesc x l ↔ a = x ∨ a ∈ l := by
  induction l with
  | nil => simp [insertDesc]
  | cons y ys ih =>
    by_cases h : cpuKey y < cpuKey x
    · simp [insertDesc, h]
    · simp only [insertDesc, if_neg h, List.mem_cons, ih]
      tauto

theorem insertDesc_perm (x : ProcInfo) (l : List ProcInfo) :
    List.Perm (insertDesc x l) (x :: l) := by
  induction l with
  | nil => simp [insertDesc]
  | cons y ys ih =>
    by_cases h : cpuKey y < cpuKey x
    · simp [insertDesc, h]
    · simp only [insertDesc, if_neg h]
      exact (ih.cons y).trans (List.Perm.swap x y ys)

theorem insertDesc_pairwise {x : ProcInfo} {l : List ProcInfo}
    (h : l.Pairwise (fun a b => cpuKey b ≤ cpuKey a)) :
    (insertDesc x l).Pairwise (fun a b => cpuKey b ≤ cpuKey a) := by
  induction l with
  | nil => simp [insertDesc]
  | cons y ys ih =>
    rw [List.pairwise_cons] at h
    by_cases hk : cpuKey y < cpuKey x
    · rw [insertDesc, if_pos hk, List.pairwise_cons]
      refine ⟨fun b hb => ?_, List.pairwise_cons.mpr h⟩
      rcases List.mem_cons.mp hb with rfl | hb
      · omega
      · have := h.1 b hb
        omega
    · rw [insertDesc, if_neg hk, List.pairwise_cons]
      refine ⟨fun b hb => ?_, ih h.2⟩
      rcases insertDesc_mem.mp hb with rfl | hb
      · omega
      · exact h.1 b hb

theorem sortFoldl_pairwise (l acc : List ProcInfo)
    (h : acc.Pairwise (fun a b => cpuKey b ≤ cpuKey a)) :
    (l.foldl (fun acc x => insertDesc x acc) acc).Pairwise
      (fun a b => cpuKey b ≤ cpuKey a) := by
  induction l generalizing acc with
  | nil => simpa using h
  | cons x xs ih => exact ih (insertDesc x acc) (insertDesc_pairwise h)

theorem sortFoldl_perm (l acc : List ProcInfo) :
    List.Perm (l.foldl (fun acc x => insertDesc x acc) acc) (acc ++ l) := by
  induction l generalizing acc with
  | nil => simp
  | cons x xs ih =>
    refine List.Perm.trans (ih (insertDesc x acc)) ?_
    refine List.Perm.trans ((insertDesc_perm x acc).append_right xs) ?_
    exact List.perm_middle.symm

theorem sortByCpuDesc_pairwise (l : List ProcInfo) :
    (sortByCpuDesc l).Pairwise (fun a b => cpuKey b ≤ cpuKey a) :=
  sortFoldl_pairwise l [] (by simp)

theorem sortByCpuDesc_perm (l : List ProcInfo) :
    List.Perm (sortByCpuDesc l) l :=
  sortFoldl_perm l []

theorem sortByCpuDesc_length (l : List ProcInfo) :
    (sortByCpuDesc l).length = l.length :=
  (sortByCpuDesc_perm l).length_eq

/-- An element inserted into a descending-sorted list lands after every
element with the same key: filtering any key class commutes with the
insertion up to appending the new element at the end. -/
theorem insertDesc_filter_eq {x : ProcInfo} {l : List ProcInfo} (k : Int)
    (h : l.Pairwise (fun a b => cpuKey b ≤ cpuKey a)) :
    (insertDesc x l).filter (fun p => cpuKey p == k)
      = l.filter (fun p => cpuKey p == k)
        ++ (if cpuKey x == k then [x] else []) := by
  induction l with
  | nil => by_cases hx : cpuKey x == k <;> simp [insertDesc, hx]
  | cons y ys ih =>
    rw [List.pairwise_cons] at h
    by_cases hk : cpuKey y < cpuKey x
    · rw [insertDesc, if_pos hk]
      by_cases hx : cpuKey x = k
      · have hempty : (y :: ys).filter (fun p => cpuKey p == k) = [] := by
          rw [List.filter_eq_nil_iff]
          intro b hb
          rcases List.mem_cons.mp hb with rfl | hb
          · simp only [beq_iff_eq]
            omega
          · have := h.1 b hb
            simp only [beq_iff_eq]
            omega
        rw [List.filter_cons_of_pos (by simpa using hx), hempty]
        simp [hx]
      · have hx' : (cpuKey x == k) = false := by simpa using hx
        rw [List.filter_cons_of_neg (by simpa using hx), hx']
        simp
    · rw [insertDesc, if_neg hk]
      by_cases hy : cpuKey y = k
      · rw [List.filter_cons_of_pos (by simpa using hy),
          List.filter_cons_of_pos (by simpa using hy), ih h.2]
        simp
      · rw [List.filter_cons_of_neg (by simpa using hy),
          List.filter_cons_of_neg (by simpa using hy), ih h.2]

theorem sortFoldl_filter_eq (l acc : List ProcInfo) (k : Int)
    (h : acc.Pairwise (fun a b => cpuKey b ≤ cpuKey a)) :
    (l.foldl (fun acc x => insertDesc x acc) acc).filter (fun p => cpuKey p == k)
      = acc.filter (fun p => cpuKey p == k) ++ l.filter (fun p => cpuKey p == k) := by
  induction l generalizing acc with
  | nil => simp
  | cons x xs ih =>
    rw [List.foldl_cons, ih (insertDesc x acc) (insertDesc_pairwise h),
      insertDesc_filter_eq k h]
    by_cases hx : cpuKey x = k
    · rw [List.filter_cons_of_pos (by simpa using hx)]
      simp [hx]
    · rw [List.filter_cons_of_neg (by simpa using hx)]
      have hx' : (cpuKey x == k) = false := by simpa using hx
      simp [hx']

/-- Stability of the embedded sort: the rows of any one cpu-key class
come out in exactly their input order. -/
theorem sortByCpuDesc_filter_eq (l : List ProcInfo) (k : Int) :
    (sortByCpuDesc l).filter (fun p => cpuKey p == k)
      = l.filter (fun p => cpuKey p == k) := by
  simpa using sortFoldl_filter_eq l [] k (by simp)

/-- Row `(pid=1, cpu=10)` of the C4 scenario. -/
def procCpu10 : ProcInfo := { pid := 1, cpu_percent := some 10 }

/-- Row `(pid=2, cpu=50)` of the C4 scenario. -/
def procCpu50a : ProcInfo := { pid := 2, cpu_percent := some 50 }

/-- Row `(pid=3, cpu=50)` of the C4 scenario. -/
def procCpu50b : ProcInfo := { pid := 3, cpu_percent := some 50 }

/-- Claim C4: the process-table rows are sorted by cpu percent descending
(missing values treated as 0), the sort is stable (each cpu-key class
keeps its original snapshot enumeration order, filtering having already
preserved that order), and the scenario snapshot
`[(pid=1,cpu=10),(pid=2,cpu=50),(pid=3,cpu=50)]` with empty filter comes
out in pid order `[2,3,1]`. -/
theorem refresh_sort_stable (raw : String) (snap : List ProcInfo) :
    (refreshRows raw snap).Pairwise (fun a b => cpuKey b ≤ cpuKey a) ∧
    (∀ k : Int, (refreshRows raw snap).filter (fun p => cpuKey p == k)
        = (filterRows raw snap).filter (fun p => cpuKey p == k)) ∧
    refreshRows "" [procCpu10, procCpu50a, procCpu50b]
      = [procCpu50a, procCpu50b, procCpu10] := by
  refine ⟨sortByCpuDesc_pairwise _, fun k => sortByCpuDesc_filter_eq _ k, ?_⟩
  decide

/-- The single-row snapshot used by the C5 counterexample: a process
named `"abc"` with pid 1 and no other attributes. -/
def procAbc : ProcInfo := { pid := 1, name := some "abc" }

/-- The retention predicate of the spec, written from its words: "a row
is retained if `filter_text` is empty, or appears as a case-insensitive
substring of the row name, stringified pid, username, or joined
command-line" (case-insensitive = both sides lowercased). -/
def specRetain (q : String) (p : ProcInfo) : Bool :=
  q.isEmpty
  || strContains (pyLower (p.name.getD "")) (pyLower q)
  || strContains (pyLower (toString p.pid)) (pyLower q)
  || strContains (pyLower (p.username.getD "")) (pyLower q)
  || strContains (pyLower (String.intercalate " " (p.cmdline.getD []))) (pyLower q)

/-- Claim C5 counterexample: with the non-empty filter string `" "` (one
space) and the snapshot `[procAbc]`, the code strips the query to `""`
and retains the row, while the claimed iff says the row is retained only
if `" "` is empty or a case-insensitive substring of a field — it is
neither, so the claim demands the row be dropped. -/
theorem filter_strip_counterexample :
    filterRows " " [procAbc] = [procAbc] ∧ specRetain " " procAbc = false := by
  decide

/-- Claim C5 (amended): the query is first lowercased and stripped of
surrounding whitespace; a row is retained iff that normalized query is
empty or occurs as a substring of the lowercased name, the stringified
pid, the lowercased username, or the lowercased joined command-line.
The filtered result is a subsequence of the snapshot, the empty filter
admits all rows, and matching is case-insensitive in the row fields. -/
theorem filter_retention_amended (raw : String) (snap : List ProcInfo) :
    (filterRows raw snap).Sublist snap ∧
    (∀ p, p ∈ filterRows raw snap ↔ p ∈ snap ∧ keepRow (normQuery raw) p = true) ∧
    filterRows "" snap = snap ∧
    filterRows "AbC" [procAbc] = [procAbc] := by
  refine ⟨List.filter_sublist snap, fun p => List.mem_filter, ?_, by decide⟩
  rw [filterRows, List.filter_eq_self]
  intro p _
  rw [show normQuery "" = "" from by decide]
  simp [keepRow, show ("" : String).isEmpty = true from rfl]

/-! ### Table rendering and selection restoration
(src/git.py lines 321-424) -/

/-- Python `str` of an integral float: the cpu/mem/gpu table cells hold
floats, and `str(5.0)` is `"5.0"`; the model keeps these values
integral. -/
def pyFloatStr (v : Int) : String := toString v ++ ".0"

/-- External inputs of the table render: the optional GPU pid-to-load map
(empty when GPUtil is unavailable or its query failed) and the
`datetime.fromtimestamp(..).strftime(..)` formatter (`none` models the
call raising, which the code catches to `""`). -/
structure RenderCtx where
  gpuDict : List (Nat × Int) := []
  fmtTime : Int → Option String := fun _ => none

/-- The 14 table cells written for one row by `refresh_processes`, in
column order PID, Name, User, CPU%, Memory%, Threads, Start, Status,
Disk Read, Disk Write, GPU%, Path, Cmdline, Nice.  Falsy-coalescing
(`or`), `round` of an int default, and the `str(... or "")` calls are
reproduced exactly. -/
def cells (ctx : RenderCtx) (p : ProcInfo) : List String :=
  [toString p.pid,
   p.name.getD "",
   p.username.getD "",
   pyFloatStr (cpuKey p),
   pyFloatStr (p.memory_percent.getD 0),
   toString (p.num_threads.getD 0),
   (match p.create_time with
    | none => ""
    | some t => if t = 0 then "" else (ctx.fmtTime t).getD ""),
   p.status.getD "",
   (match p.io_counters with
    | none => "0 B"
    | some io => human_bytes (some (io.1 : ℚ))),
   (match p.io_counters with
    | none => "0 B"
    | some io => human_bytes (some (io.2 : ℚ))),
   (if ctx.gpuDict.isEmpty then pyFloatStr 0
    else match ctx.gpuDict.lookup p.pid with
      | none => "0"
      | some v => pyFloatStr v),
   p.exe.getD "",
   String.intercalate " " (p.cmdline.getD []),
   (match p.nice with
    | none => ""
    | some v => if v = 0 then "" else toString v)]

/-- First row (top to bottom) whose cell in column `col` has exactly the
text `text` (`Qt.MatchExactly` within one column). -/
def findFirstRowInColumn (rows : List (List String)) (col : Nat)
    (text : String) : Option Nat :=
  match rows with
  | [] => none
  | cs :: rest =>
    if cs.getD col "" = text then some 0
    else (findFirstRowInColumn rest col text).map (· + 1)

/-- Qt method `QTableWidget.findItems(text, MatchExactly)` collects matches column
by column (column 0, the PID column, first), each column scanned top to
bottom; `refresh_processes` uses only the first hit. -/
def firstMatchInColumns (rows : List (List String)) (text : String) :
    List Nat → Option Nat
  | [] => none
  | c :: cs =>
    match findFirstRowInColumn rows c text with
    | some r => some r
    | none => firstMatchInColumns rows text cs

/-- The row selected by `findItems(str(selected_pid), MatchExactly)` over
the 14-column table. -/
def findItemsFirstRow (rows : List (List String)) (text : String) : Option Nat :=
  firstMatchInColumns rows text (List.range 14)

/-- Selection restoration in `refresh_processes`: the previously selected
pid is searched with `findItems` over the freshly rendered table and the
row of the first hit re-selected; the reported restored selection is the
pid of that row. -/
def restoredSelection (ctx : RenderCtx) (prev : Option Nat) (raw : String)
    (snap : List ProcInfo) : Option Nat :=
  match prev with
  | none => none
  | some pid =>
    let rows := refreshRows raw snap
    match findItemsFirstRow (rows.map (cells ctx)) (toString pid) with
    | some r => (rows[r]?).map (·.pid)
    | none => none

/-- The default render inputs: no GPU map, no time formatting. -/
def ctxPlain : RenderCtx := {}

/-- Counterexample row for C3: pid 3 with 7 threads. -/
def procThreads7 : ProcInfo := { pid := 3, name := some "x", num_threads := some 7 }

/-- Claim C3 counterexample: with previously selected pid 7 absent from
the re-sampled rows, the claim says no selection is reported; but
`findItems` matches the Threads cell `"7"` of the (only) row, whose pid
is 3, so the code re-selects that row and reports pid 3. -/
theorem selection_restore_counterexample :
    (refreshRows "" [procThreads7]).map (fun p => p.pid) = [3] ∧
    restoredSelection ctxPlain (some 7) "" [procThreads7] = some 3 := by
  decide

theorem cells_length (ctx : RenderCtx) (p : ProcInfo) :
    (cells ctx p).length = 14 := rfl

theorem cells_head (ctx : RenderCtx) (p : ProcInfo) :
    (cells ctx p).getD 0 "" = toString p.pid := rfl

/-- Column 0 holds the pid strings; if the pid is present and pid strings
are unique, the first exact match in column 0 is the row of that pid. -/
theorem findFirstRowInColumn_pid (ctx : RenderCtx) (rows : List ProcInfo)
    (pid : Nat) (hmem : pid ∈ rows.map (fun p => p.pid))
    (hnd : (rows.map fun p => toString p.pid).Nodup) :
    ∃ j, findFirstRowInColumn (rows.map (cells ctx)) 0 (toString pid) = some j ∧
      ∃ row, rows[j]? = some row ∧ row.pid = pid := by
  induction rows with
  | nil => simp at hmem
  | cons r rest ih =>
    rw [List.map_cons, findFirstRowInColumn, cells_head]
    rw [List.map_cons, List.nodup_cons] at hnd
    have hdisj : pid = r.pid ∨ ∃ a ∈ rest, a.pid = pid := by simpa using hmem
    by_cases h : toString r.pid = toString pid
    · have hr : r.pid = pid := by
        by_contra hne
        have hpid : toString pid ∈ rest.map fun p => toString p.pid := by
          rcases hdisj with h1 | ⟨x, hx, hxpid⟩
          · exact absurd h1.symm hne
          · exact List.mem_map.mpr ⟨x, hx, by rw [hxpid]⟩
        rw [← h] at hpid
        exact hnd.1 hpid
      exact ⟨0, by rw [if_pos h], r, by simp, hr⟩
    · have hpid : pid ∈ rest.map (fun p => p.pid) := by
        rcases hdisj with h1 | ⟨x, hx, hxpid⟩
        · exact absurd (by rw [h1]) h
        · exact List.mem_map.mpr ⟨x, hx, hxpid⟩
      obtain ⟨j, hj, row, hrow, hrpid⟩ := ih hpid hnd.2
      exact ⟨j + 1, by rw [if_neg h, hj]; rfl, row, by simpa using hrow, hrpid⟩

theorem findFirstRowInColumn_none (rows : List (List String)) (col : Nat)
    (text : String) (h : ∀ cs ∈ rows, cs.getD col "" ≠ text) :
    findFirstRowInColumn rows col text = none := by
  induction rows with
  | nil => rfl
  | cons cs rest ih =>
    rw [findFirstRowInColumn, if_neg (h cs (List.mem_cons_self cs rest)),
      ih fun cs' hcs' => h cs' (List.mem_cons_of_mem cs hcs')]
    rfl

theorem firstMatchInColumns_none (rows : List (List String)) (text : String)
    (cols : List Nat)
    (h : ∀ c ∈ cols, findFirstRowInColumn rows c text = none) :
    firstMatchInColumns rows text cols = none := by
  induction cols with
  | nil => rfl
  | cons c cs ih =>
    rw [firstMatchInColumns, h c (List.mem_cons_self c cs)]
    exact ih fun c' hc' => h c' (List.mem_cons_of_mem c hc')

/-- Claim C3 (amended): if the previously selected pid is present in the
new filtered/sorted rows (pid strings being unique within a snapshot),
exactly that pid is reported as the restored selection — the PID column
is scanned first.  If the pid is absent, none is reported only when no
cell text in the whole table equals the stringified pid; otherwise the
first textually matching row is erroneously re-selected (see the
counterexample).  With no previous selection nothing is restored. -/
theorem selection_restore_amended (ctx : RenderCtx) (raw : String)
    (snap : List ProcInfo) (pid : Nat)
    (hnd : (snap.map fun p => toString p.pid).Nodup) :
    (pid ∈ (refreshRows raw snap).map (fun p => p.pid) →
        restoredSelection ctx (some pid) raw snap = some pid) ∧
    ((∀ cs ∈ (refreshRows raw snap).map (cells ctx), ∀ c ∈ cs, c ≠ toString pid) →
        restoredSelection ctx (some pid) raw snap = none) ∧
    restoredSelection ctx none raw snap = none := by
  have hndRows : ((refreshRows raw snap).map fun p => toString p.pid).Nodup := by
    have h1 : ((filterRows raw snap).map fun p => toString p.pid).Nodup :=
      ((List.filter_sublist snap).map _).nodup hnd
    exact (((sortByCpuDesc_perm (filterRows raw snap)).map _).nodup_iff).mpr h1
  refine ⟨fun hmem => ?_, fun habs => ?_, rfl⟩
  · obtain ⟨j, hj, row, hrow, hrpid⟩ :=
      findFirstRowInColumn_pid ctx (refreshRows raw snap) pid hmem hndRows
    rw [restoredSelection, findItemsFirstRow,
      show List.range 14 = 0 :: [1, 2, 3, 4, 5, 6, 7, 8, 9, 10, 11, 12, 13]
        from by decide,
      firstMatchInColumns, hj]
    simp [hrow, hrpid]
  · rw [restoredSelection, findItemsFirstRow, firstMatchInColumns_none]
    intro c hc
    apply findFirstRowInColumn_none
    intro cs hcs
    rcases List.mem_map.mp hcs with ⟨p, _, rfl⟩
    have hclt : c < 14 := List.mem_range.mp hc
    rw [List.getD_eq_getElem _ "" (by rw [cells_length]; exact hclt)]
    exact habs (cells ctx p) hcs _ (List.getElem_mem _)

/-- Witness row for the amended C3 theorem: a lone process with pid 5. -/
def procPid5 : ProcInfo := { pid := 5 }

/-- Claim C3 witness: re-selecting pid 5, present in the single-row
table, reports pid 5. -/
theorem selection_restore_amended_witness :
    restoredSelection ctxPlain (some 5) "" [procPid5] = some 5 :=
  (selection_restore_amended ctxPlain "" [procPid5] 5 (by decide)).1 (by decide)

/-! ### History recorder (src/git.py lines 744-762) -/

/-- Python `str` of an optional string: `str(None)` is `"None"`. -/
def pyStrOptStr (o : Option String) : String := o.getD "None"

/-- Python `str` of an optional (integral) float. -/
def pyStrOptFloat (o : Option Int) : String :=
  match o with
  | none => "None"
  | some v => pyFloatStr v

/-- One row of the App History table: Time, PID, Name, CPU%, Memory%,
GPU% — all stored as the rendered strings. -/
structure HistoryEntry where
  time : String
  pid : String
  name : String
  cpu : String
  mem : String
  gpu : String
deriving DecidableEq

/-- The history row written for one process in `refresh_history_log`
(the GPU column is the literal `"0"`). -/
def historyRow (t : String) (p : ProcInfo) : HistoryEntry :=
  { time := t
    pid := toString p.pid
    name := pyStrOptStr p.name
    cpu := pyStrOptFloat p.cpu_percent
    mem := pyStrOptFloat p.memory_percent
    gpu := "0" }

/-- Method `refresh_history_log`: append one row per top-5 cpu process of the
snapshot (same sort key as the table), then — under an `if`, not a loop —
remove a single oldest row when the table has more than 500 rows. -/
def refresh_history_log (t : String) (snap : List ProcInfo)
    (hist : List HistoryEntry) : List HistoryEntry :=
  let top := (sortByCpuDesc snap).take 5
  let h := hist ++ top.map (historyRow t)
  if 500 < h.length then h.drop 1 else h

/-- The net length effect of one history tick that appends `added` rows. -/
def historyLenStep (n added : Nat) : Nat :=
  if 500 < n + added then n + added - 1 else n + added

theorem refresh_history_log_length (t : String) (snap : List ProcInfo)
    (hist : List HistoryEntry) :
    (refresh_history_log t snap hist).length
      = historyLenStep hist.length (min 5 snap.length) := by
  have hlen : (hist ++ ((sortByCpuDesc snap).take 5).map (historyRow t)).length
      = hist.length + min 5 snap.length := by
    simp [sortByCpuDesc_length]
  rw [refresh_history_log, historyLenStep]
  by_cases hc : 500 < hist.length + min 5 snap.length
  · rw [if_pos (by rw [hlen]; exact hc), if_pos hc, List.length_drop, hlen]
  · rw [if_neg (by rw [hlen]; exact hc), if_neg hc, hlen]

/-- Iterate `k` consecutive history ticks over the same snapshot, starting from
an empty table. -/
def historyAfterTicks (t : String) (snap : List ProcInfo) : Nat → List HistoryEntry
  | 0 => []
  | k + 1 => refresh_history_log t snap (historyAfterTicks t snap k)

/-- A five-process snapshot (the top-5 selection appends 5 rows a tick). -/
def snapFive : List ProcInfo :=
  [{ pid := 1 }, { pid := 2 }, { pid := 3 }, { pid := 4 }, { pid := 5 }]

theorem historyAfterTicks_length (t : String) (k : Nat) :
    (historyAfterTicks t snapFive k).length
      = (fun n => historyLenStep n 5)^[k] 0 := by
  induction k with
  | zero => rfl
  | succ k ih =>
    rw [historyAfterTicks, refresh_history_log_length, ih,
      Function.iterate_succ_apply',
      show min 5 snapFive.length = 5 from rfl]

/-- Claim C1 evaluated at the failing input: the code removes at most one
oldest row per tick while each tick appends five, so after 101 ticks from
empty the history holds 504 entries — the 500 cap is exceeded and grows
without bound, contradicting both the claim and the stated intent of
keeping the table bounded. -/
theorem history_cap_violated :
    (historyAfterTicks "t" snapFive 101).length = 504 ∧
    500 < (historyAfterTicks "t" snapFive 101).length := by
  have h : (historyAfterTicks "t" snapFive 101).length = 504 := by
    rw [historyAfterTicks_length]
    decide
  exact ⟨h, by omega⟩

/-! ### Chart buffers (src/git.py lines 83-152) -/

/-- The per-process mini chart: three parallel series and the capacity
(`maxlen`, default 30 — the value used for the selected-process chart). -/
structure MiniProcChart where
  cpu_data : List ℚ := []
  mem_data : List ℚ := []
  times : List String := []
  maxlen : Nat := 30
deriving DecidableEq

/-- Method `MiniProcChart.push`: append the new point to the three parallel
series; if the times series now exceeds `maxlen`, pop the head of all
three in lockstep. -/
def MiniProcChart.push (c : MiniProcChart) (cpu mem : ℚ) (t : String) :
    MiniProcChart :=
  if c.maxlen < (c.times ++ [t]).length then
    { cpu_data := (c.cpu_data ++ [cpu]).drop 1
      mem_data := (c.mem_data ++ [mem]).drop 1
      times := (c.times ++ [t]).drop 1
      maxlen := c.maxlen }
  else
    { cpu_data := c.cpu_data ++ [cpu]
      mem_data := c.mem_data ++ [mem]
      times := c.times ++ [t]
      maxlen := c.maxlen }

/-- Method `MiniProcChart.clear`: reset all three series to empty. -/
def MiniProcChart.clear (c : MiniProcChart) : MiniProcChart :=
  { cpu_data := [], mem_data := [], times := [], maxlen := c.maxlen }

/-- A fresh chart with capacity `cap` and empty series. -/
def MiniProcChart.new (cap : Nat) : MiniProcChart := { maxlen := cap }

/-- The system-wide performance graph: capacity hardcoded to 40. -/
structure PerfGraph where
  x_data : List String := []
  cpu_data : List ℚ := []
  mem_data : List ℚ := []
deriving DecidableEq

/-- Method `PerfGraph.update_graph` (the pure series part): append the sampled
point; if `x_data` exceeds 40, pop the head of all three series. -/
def PerfGraph.update_graph (g : PerfGraph) (cpu mem : ℚ) (t : String) :
    PerfGraph :=
  if 40 < (g.x_data ++ [t]).length then
    { x_data := (g.x_data ++ [t]).drop 1
      cpu_data := (g.cpu_data ++ [cpu]).drop 1
      mem_data := (g.mem_data ++ [mem]).drop 1 }
  else
    { x_data := g.x_data ++ [t]
      cpu_data := g.cpu_data ++ [cpu]
      mem_data := g.mem_data ++ [mem] }

/-- Append one point to a single capped series, dropping the oldest point
when the capacity is exceeded. -/
def rollAppend (cap : Nat) (l : List α) (x : α) : List α :=
  if cap < (l ++ [x]).length then (l ++ [x]).drop 1 else l ++ [x]

/-- A sequence of capped appends. -/
def rollAll (cap : Nat) (l xs : List α) : List α := xs.foldl (rollAppend cap) l

theorem rollAppend_eq_drop (cap : Nat) (l : List α) (x : α)
    (h : l.length ≤ cap) :
    rollAppend cap l x = (l ++ [x]).drop (l.length + 1 - cap) := by
  rw [rollAppend]
  by_cases hc : cap < (l ++ [x]).length
  · rw [if_pos hc, show l.length + 1 - cap = 1 from by simp at hc; omega]
  · rw [if_neg hc, show l.length + 1 - cap = 0 from by simp at hc; omega,
      List.drop_zero]

theorem rollAppend_length (cap : Nat) (l : List α) (x : α)
    (h : l.length ≤ cap) :
    (rollAppend cap l x).length = min (l.length + 1) cap := by
  rw [rollAppend]
  by_cases hc : cap < (l ++ [x]).length
  · rw [if_pos hc]
    simp at hc ⊢
    omega
  · rw [if_neg hc]
    simp at hc ⊢
    omega

theorem rollAll_eq_drop (cap : Nat) (l xs : List α) (h : l.length ≤ cap) :
    rollAll cap l xs = (l ++ xs).drop (l.length + xs.length - cap) := by
  induction xs generalizing l with
  | nil =>
    rw [show rollAll cap l [] = l from rfl, List.append_nil,
      show l.length + [].length - cap = 0 from by simp; omega, List.drop_zero]
  | cons x xs ih =>
    have h1 : (rollAppend cap l x).length ≤ cap := by
      rw [rollAppend_length cap l x h]
      omega
    have hsplit : ((l ++ [x]) ++ xs).drop (l.length + 1 - cap)
        = (l ++ [x]).drop (l.length + 1 - cap) ++ xs :=
      List.drop_append_of_le_length
        (by simp only [List.length_append, List.length_singleton]; omega)
    rw [show rollAll cap l (x :: xs) = rollAll cap (rollAppend cap l x) xs
      from rfl, ih (rollAppend cap l x) h1, rollAppend_length cap l x h,
      rollAppend_eq_drop cap l x h, ← hsplit, List.drop_drop,
      List.append_assoc, List.singleton_append]
    congr 1
    simp only [List.length_cons, List.length_append, List.length_singleton]
    omega

/-- The three series of a chart have equal length. -/
def MiniProcChart.Aligned (c : MiniProcChart) : Prop :=
  c.cpu_data.length = c.times.length ∧ c.mem_data.length = c.times.length

theorem MiniProcChart.push_eq (c : MiniProcChart) (cpu mem : ℚ) (t : String)
    (h : c.Aligned) :
    (c.push cpu mem t).times = rollAppend c.maxlen c.times t ∧
    (c.push cpu mem t).cpu_data = rollAppend c.maxlen c.cpu_data cpu ∧
    (c.push cpu mem t).mem_data = rollAppend c.maxlen c.mem_data mem ∧
    (c.push cpu mem t).maxlen = c.maxlen := by
  obtain ⟨h1, h2⟩ := h
  unfold MiniProcChart.push rollAppend
  simp only [List.length_append, List.length_singleton, h1, h2]
  by_cases hc : c.maxlen < c.times.length + 1 <;> simp [hc]

theorem MiniProcChart.push_aligned (c : MiniProcChart) (cpu mem : ℚ)
    (t : String) (h : c.Aligned) : (c.push cpu mem t).Aligned := by
  obtain ⟨h1, h2⟩ := h
  unfold MiniProcChart.push MiniProcChart.Aligned
  by_cases hc : c.maxlen < (c.times ++ [t]).length
  · rw [if_pos hc]
    constructor <;> simp [h1, h2]
  · rw [if_neg hc]
    constructor <;> simp [h1, h2]

/-- Push a whole sequence of `(cpu, mem, time)` points. -/
def MiniProcChart.pushAll (c : MiniProcChart) (ps : List (ℚ × ℚ × String)) :
    MiniProcChart :=
  ps.foldl (fun c p => c.push p.1 p.2.1 p.2.2) c

theorem MiniProcChart.pushAll_eq (c : MiniProcChart)
    (ps : List (ℚ × ℚ × String)) (h : c.Aligned) :
    (c.pushAll ps).times = rollAll c.maxlen c.times (ps.map (fun p => p.2.2)) ∧
    (c.pushAll ps).cpu_data = rollAll c.maxlen c.cpu_data (ps.map (fun p => p.1)) ∧
    (c.pushAll ps).mem_data = rollAll c.maxlen c.mem_data (ps.map (fun p => p.2.1)) := by
  induction ps generalizing c with
  | nil => exact ⟨rfl, rfl, rfl⟩
  | cons p ps ih =>
    have hal := MiniProcChart.push_aligned c p.1 p.2.1 p.2.2 h
    obtain ⟨e1, e2, e3, e4⟩ := MiniProcChart.push_eq c p.1 p.2.1 p.2.2 h
    obtain ⟨i1, i2, i3⟩ := ih (c.push p.1 p.2.1 p.2.2) hal
    refine ⟨?_, ?_, ?_⟩
    · rw [show MiniProcChart.pushAll c (p :: ps)
          = MiniProcChart.pushAll (c.push p.1 p.2.1 p.2.2) ps from rfl,
        i1, e1, e4]
      rfl
    · rw [show MiniProcChart.pushAll c (p :: ps)
          = MiniProcChart.pushAll (c.push p.1 p.2.1 p.2.2) ps from rfl,
        i2, e2, e4]
      rfl
    · rw [show MiniProcChart.pushAll c (p :: ps)
          = MiniProcChart.pushAll (c.push p.1 p.2.1 p.2.2) ps from rfl,
        i3, e3, e4]
      rfl

/-- View of the system graph as a capacity-40 chart. -/
def PerfGraph.toChart (g : PerfGraph) : MiniProcChart :=
  { cpu_data := g.cpu_data, mem_data := g.mem_data, times := g.x_data,
    maxlen := 40 }

theorem PerfGraph.update_toChart (g : PerfGraph) (cpu mem : ℚ) (t : String) :
    (g.update_graph cpu mem t).toChart = g.toChart.push cpu mem t := by
  unfold PerfGraph.update_graph PerfGraph.toChart MiniProcChart.push
  by_cases hc : 40 < (g.x_data ++ [t]).length
  · rw [if_pos hc, if_pos hc]
  · rw [if_neg hc, if_neg hc]

/-- Drive the system graph with a sequence of sampled points. -/
def PerfGraph.updateAll (g : PerfGraph) (ps : List (ℚ × ℚ × String)) :
    PerfGraph :=
  ps.foldl (fun g p => g.update_graph p.1 p.2.1 p.2.2) g

theorem PerfGraph.updateAll_toChart (g : PerfGraph)
    (ps : List (ℚ × ℚ × String)) :
    (g.updateAll ps).toChart = g.toChart.pushAll ps := by
  induction ps generalizing g with
  | nil => rfl
  | cons p ps ih =>
    rw [show PerfGraph.updateAll g (p :: ps)
        = PerfGraph.updateAll (g.update_graph p.1 p.2.1 p.2.2) ps from rfl,
      ih, PerfGraph.update_toChart]
    rfl

/-- Claim C6: a chart buffer with capacity `C` keeps, after any sequence
of pushes, exactly the most recent points in push order in every one of
its parallel series (`drop (N - C)` of the pushed sequence), hence
exactly `C` points once more than `C` were pushed; the series stay
index-aligned; `clear` empties every series; the per-process mini chart
defaults to capacity 30 and the system graph is fixed at capacity 40. -/
theorem chart_buffer_rolling (C : Nat) (ps : List (ℚ × ℚ × String))
    (h : C < ps.length) :
    ((MiniProcChart.new C).pushAll ps).times.length = C ∧
    ((MiniProcChart.new C).pushAll ps).times
      = (ps.map (fun p => p.2.2)).drop (ps.length - C) ∧
    ((MiniProcChart.new C).pushAll ps).cpu_data
      = (ps.map (fun p => p.1)).drop (ps.length - C) ∧
    ((MiniProcChart.new C).pushAll ps).mem_data
      = (ps.map (fun p => p.2.1)).drop (ps.length - C) ∧
    (∀ c : MiniProcChart,
      c.clear.times = [] ∧ c.clear.cpu_data = [] ∧ c.clear.mem_data = []) ∧
    ({} : MiniProcChart).maxlen = 30 ∧
    (∀ qs : List (ℚ × ℚ × String),
      (PerfGraph.updateAll {} qs).x_data
        = (qs.map (fun p => p.2.2)).drop (qs.length - 40)) := by
  obtain ⟨t1, t2, t3⟩ :=
    MiniProcChart.pushAll_eq (MiniProcChart.new C) ps ⟨rfl, rfl⟩
  have hnew : (MiniProcChart.new C).maxlen = C := rfl
  have htimes : ((MiniProcChart.new C).pushAll ps).times
      = (ps.map (fun p => p.2.2)).drop (ps.length - C) := by
    rw [t1, hnew, show (MiniProcChart.new C).times = [] from rfl,
      rollAll_eq_drop C [] _ (by simp)]
    simp
  refine ⟨?_, htimes, ?_, ?_, fun c => ⟨rfl, rfl, rfl⟩, rfl, fun qs => ?_⟩
  · rw [htimes]
    simp
    omega
  · rw [t2, hnew, show (MiniProcChart.new C).cpu_data = [] from rfl,
      rollAll_eq_drop C [] _ (by simp)]
    simp
  · rw [t3, hnew, show (MiniProcChart.new C).mem_data = [] from rfl,
      rollAll_eq_drop C [] _ (by simp)]
    simp
  · have hx : (PerfGraph.updateAll {} qs).x_data
        = ((PerfGraph.updateAll {} qs).toChart).times := rfl
    rw [hx, PerfGraph.updateAll_toChart]
    obtain ⟨u1, _, _⟩ :=
      MiniProcChart.pushAll_eq (PerfGraph.toChart {}) qs ⟨rfl, rfl⟩
    rw [u1, show (PerfGraph.toChart {}).maxlen = 40 from rfl,
      show (PerfGraph.toChart {}).times = [] from rfl,
      rollAll_eq_drop 40 [] _ (by simp)]
    simp

/-- Claim C6 witness: pushing two points into a capacity-1 chart leaves
exactly the most recent point. -/
theorem chart_buffer_rolling_witness :
    ((MiniProcChart.new 1).pushAll [(0, 0, "a"), (1, 1, "b")]).times = ["b"] ∧
    ((MiniProcChart.new 1).pushAll [(0, 0, "a"), (1, 1, "b")]).times.length = 1 := by
  have h := chart_buffer_rolling 1 [(0, 0, "a"), (1, 1, "b")] (by decide)
  exact ⟨by rw [h.2.1]; decide, h.1⟩

/-! ### Error flow of the periodic tick
(src/git.py lines 314-319, 321-350, 426-433, 744-762, 764-774) -/

/-- An exception raised by an OS metrics provider call. -/
inductive PError
  | err (msg : String)
deriving DecidableEq

/-- One logged-in user record from `psutil.users()`. -/
structure UserRec where
  name : String
  terminal : String
  started : Int
deriving DecidableEq

/-- Method `refresh_users` has NO try/except anywhere in its body: both
the `psutil.users()` enumeration and the per-user
`datetime.fromtimestamp` rendering are unguarded, so an exception raised
anywhere in this step — modelled as the step evaluating to `.error` —
propagates out of the method and hence out of the `auto_refresh` tick. -/
def refresh_users (usersCall : Except PError (List UserRec)) :
    Except PError (List UserRec) := do
  let us ← usersCall
  pure us

/-- The outer try/except of `refresh_processes` around
`psutil.process_iter`: a failed enumeration degrades to the empty
snapshot instead of raising. -/
def procsOrEmpty (call : Except PError (List ProcInfo)) : List ProcInfo :=
  match call with
  | .ok ps => ps
  | .error _ => []

/-- The sample portion of `refresh_processes` (git.py lines 321-421):
the provider call is guarded, so this portion always completes with the
filtered/sorted rows (empty rows on a failed snapshot call), and on the
failed-snapshot path the rebuilt table is empty, no selection survives,
and the trailing details refresh early-returns — so nothing on that path
can raise.  The details refresh itself is modelled separately in
`refresh_processes_full`. -/
def refresh_processes_tick (call : Except PError (List ProcInfo))
    (raw : String) : Except PError (List ProcInfo) :=
  .ok (refreshRows raw (procsOrEmpty call))

/-- Method `refresh_history_log` wraps its whole body in a blanket
`try/except: pass`: a failed enumeration leaves the history unchanged
and never raises. -/
def refresh_history_log_tick (t : String)
    (call : Except PError (List ProcInfo)) (hist : List HistoryEntry) :
    Except PError (List HistoryEntry) :=
  .ok (match call with
       | .ok snap => refresh_history_log t snap hist
       | .error _ => hist)

/-- Method `update_gpu_label` guards its GPU query and degrades to the
"GPU info not available" text. -/
def update_gpu_label_tick (call : Except PError (List String)) :
    Except PError String :=
  .ok (match call with
       | .ok infos => String.intercalate "\n" infos
       | .error _ => "GPU info not available")

/-- A handle returned by `psutil.Process(pid)`: each attribute call may
itself raise (the process can vanish between construction and the
call). -/
structure ProcHandle where
  nameCall : Except PError String
  usernameCall : Except PError String
  statusCall : Except PError String
  createTimeCall : Except PError Int
  numThreadsCall : Except PError Nat

/-- Method `update_selected_details` (git.py lines 497-562): with no
selection it resets the pane and returns; the `psutil.Process(pid)`
construction is guarded (a vanished pid gives the benign "ended or not
accessible" text); but the next five attribute calls — `p.name()`,
`p.username()`, `p.status()`, `p.create_time()`, `p.num_threads()` at
lines 513-518 — sit OUTSIDE any try and propagate; every later detail
field and the chart push are individually guarded. -/
def update_selected_details (sel : Option Nat)
    (lookup : Nat → Except PError ProcHandle) : Except PError Unit :=
  match sel with
  | none => .ok ()
  | some pid =>
    match lookup pid with
    | .error _ => .ok ()
    | .ok p => do
        let _ ← p.nameCall
        let _ ← p.usernameCall
        let _ ← p.statusCall
        let _ ← p.createTimeCall
        let _ ← p.numThreadsCall
        pure ()

/-- The full `refresh_processes` step of the tick: the guarded sample
portion, then the trailing `update_selected_details` call (git.py line
424) applied to the restored selection — the one place inside the table
refresh from which an exception can escape. -/
def refresh_processes_full (call : Except PError (List ProcInfo))
    (raw : String) (ctx : RenderCtx) (prev : Option Nat)
    (lookup : Nat → Except PError ProcHandle) :
    Except PError (List ProcInfo) := do
  let rows := refreshRows raw (procsOrEmpty call)
  let _ ← update_selected_details
    (restoredSelection ctx prev raw (procsOrEmpty call)) lookup
  pure rows

/-- The provider calls made during one `auto_refresh` tick. -/
structure TickCalls where
  processIter : Except PError (List ProcInfo)
  usersCall : Except PError (List UserRec)
  gpuCall : Except PError (List String)
  historyIter : Except PError (List ProcInfo)

/-- Method `auto_refresh`: runs the four refresh steps in order — the
full table refresh (details included), the users refresh, the GPU label,
the history log; an uncaught exception in any step aborts the tick (Qt
slots do not catch). -/
def auto_refresh (tc : TickCalls) (ctx : RenderCtx) (prev : Option Nat)
    (lookup : Nat → Except PError ProcHandle) (raw t : String)
    (hist : List HistoryEntry) :
    Except PError (List ProcInfo × List HistoryEntry) := do
  let rows ← refresh_processes_full tc.processIter raw ctx prev lookup
  let _ ← refresh_users tc.usersCall
  let _ ← update_gpu_label_tick tc.gpuCall
  let hist' ← refresh_history_log_tick t tc.historyIter hist
  pure (rows, hist')

/-- A handle whose target vanished right after `psutil.Process(pid)`
succeeded: every attribute call raises NoSuchProcess. -/
def vanishedHandle : ProcHandle :=
  { nameCall := .error (.err "NoSuchProcess")
    usernameCall := .error (.err "NoSuchProcess")
    statusCall := .error (.err "NoSuchProcess")
    createTimeCall := .error (.err "NoSuchProcess")
    numThreadsCall := .error (.err "NoSuchProcess") }

/-- A process table whose handles construct successfully but whose
processes vanish before the first attribute call. -/
def lookupVanishedAfter : Nat → Except PError ProcHandle :=
  fun _ => .ok vanishedHandle

/-- Claim C7 counterexample: two concrete ticks in which a failure is
not converted but propagates out of `auto_refresh`.  First, a
users-enumeration failure aborts the tick (`refresh_users` has no
try/except).  Second, with pid 5 selected and restored, a process that
vanishes after `psutil.Process(pid)` succeeds makes the unguarded
`p.name()` call of `update_selected_details` raise NoSuchProcess — the
very "process vanished" class the claim says is always converted — and
the tick aborts. -/
theorem tick_failure_counterexample :
    auto_refresh
      { processIter := .ok [], usersCall := .error (.err "EPERM"),
        gpuCall := .ok [], historyIter := .ok [] }
      ctxPlain none lookupVanishedAfter "" "t" []
      = .error (.err "EPERM") ∧
    auto_refresh
      { processIter := .ok [procPid5], usersCall := .ok [],
        gpuCall := .ok [], historyIter := .ok [] }
      ctxPlain (some 5) lookupVanishedAfter "" "t" []
      = .error (.err "NoSuchProcess") := by
  exact ⟨rfl, rfl⟩

/-- Claim C7 (amended): the propagation policy is not total.  Failures
of the snapshot enumeration, the GPU query and the history recording are
caught at the offending call, and a selection whose pid is already gone
at `psutil.Process(pid)` time is handled benignly; but two error paths
escape the tick: any failure inside the users refresh, and a failure of
the five unguarded attribute calls on a selected process that vanishes
after its handle is constructed.  Precisely: when the selected-details
step raises, the tick aborts with that error; when it completes, the
tick completes iff the users refresh succeeds; and with no previous
selection the details step always completes. -/
theorem tick_propagation_amended (tc : TickCalls) (ctx : RenderCtx)
    (prev : Option Nat) (lookup : Nat → Except PError ProcHandle)
    (raw t : String) (hist : List HistoryEntry) :
    (∀ e, update_selected_details
        (restoredSelection ctx prev raw (procsOrEmpty tc.processIter)) lookup
          = .error e →
      auto_refresh tc ctx prev lookup raw t hist = .error e) ∧
    (update_selected_details
        (restoredSelection ctx prev raw (procsOrEmpty tc.processIter)) lookup
          = .ok () →
      (∃ us, tc.usersCall = .ok us) →
        (auto_refresh tc ctx prev lookup raw t hist).isOk = true) ∧
    (update_selected_details
        (restoredSelection ctx prev raw (procsOrEmpty tc.processIter)) lookup
          = .ok () →
      ∀ e, tc.usersCall = .error e →
        auto_refresh tc ctx prev lookup raw t hist = .error e) ∧
    (prev = none →
      update_selected_details
        (restoredSelection ctx prev raw (procsOrEmpty tc.processIter)) lookup
          = .ok ()) := by
  refine ⟨fun e hd => ?_, fun hd hus => ?_, fun hd e hus => ?_, fun hp => ?_⟩
  · simp [auto_refresh, refresh_processes_full, hd, Bind.bind, Except.bind]
  · obtain ⟨us, hus⟩ := hus
    simp [auto_refresh, refresh_processes_full, refresh_users, hd, hus,
      update_gpu_label_tick, refresh_history_log_tick, Except.isOk,
      Except.toBool, Bind.bind, Except.bind, Pure.pure, Except.pure]
  · simp [auto_refresh, refresh_processes_full, refresh_users, hd, hus,
      update_gpu_label_tick, refresh_history_log_tick,
      Bind.bind, Except.bind, Pure.pure, Except.pure]
  · subst hp
    rfl

/-- Claim C7 witness: a tick with no previous selection whose process,
GPU and history enumerations all fail but whose users refresh succeeds
still completes. -/
theorem tick_propagation_amended_witness :
    (auto_refresh
      { processIter := .error (.err "boom"), usersCall := .ok [],
        gpuCall := .error (.err "boom"), historyIter := .error (.err "boom") }
      ctxPlain none lookupVanishedAfter "" "t" []).isOk = true :=
  (tick_propagation_amended _ ctxPlain none lookupVanishedAfter "" "t" []).2.1
    rfl ⟨[], rfl⟩

/-- Claim C8: when the whole OS snapshot call fails, `refresh_processes`
produces an empty row sequence instead of propagating the error, and the
table-refresh step never raises for any provider outcome. -/
theorem provider_failure_empty_rows (e : PError) (raw : String) :
    refresh_processes_tick (.error e) raw = .ok [] ∧
    (∀ call : Except PError (List ProcInfo),
      (refresh_processes_tick call raw).isOk = true) := by
  constructor
  · rfl
  · intro call
    rfl

/-! ### Process actions on a missing pid
(src/git.py lines 634-658) -/

/-- A live process as seen by the action executor: whether it exits
within the 3-second `wait` bound after the signal. -/
structure ProcState where
  exitsInTime : Bool
deriving DecidableEq

/-- Outcome of a process-control action reported to the user. -/
inductive ActionOutcome
  | ok
  | processNotFound
  | otherError (msg : String)
deriving DecidableEq

/-- Method `terminate_pid`: `psutil.Process(pid)` raises `NoSuchProcess` for a
dead pid, which the dedicated except-branch reports benignly; a `wait`
timeout is caught by the blanket except-branch.  (The unconditional
re-refresh in `finally` is the guarded table refresh and is not part of
the outcome.) -/
def terminate_pid (table : Nat → Option ProcState) (pid : Nat) :
    ActionOutcome :=
  match table pid with
  | none => .processNotFound
  | some st => if st.exitsInTime then .ok else .otherError "timeout"

/-- Method `kill_pid`: identical handling with the forced-kill signal. -/
def kill_pid (table : Nat → Option ProcState) (pid : Nat) : ActionOutcome :=
  match table pid with
  | none => .processNotFound
  | some st => if st.exitsInTime then .ok else .otherError "timeout"

/-- Claim C9: invoking Terminate or Kill on a pid with no corresponding
process reports the benign ProcessNotFound outcome; the handlers are
total, so no unhandled fault escapes. -/
theorem action_on_missing_pid (table : Nat → Option ProcState) (pid : Nat)
    (h : table pid = none) :
    terminate_pid table pid = .processNotFound ∧
    kill_pid table pid = .processNotFound := by
  rw [terminate_pid, kill_pid, h]
  exact ⟨rfl, rfl⟩

/-- A process table with no live processes. -/
def emptyProcTable : Nat → Option ProcState := fun _ => none

/-- Claim C9 witness: both actions on pid 1 of an empty process table. -/
theorem action_on_missing_pid_witness :
    terminate_pid emptyProcTable 1 = .processNotFound ∧
    kill_pid emptyProcTable 1 = .processNotFound :=
  action_on_missing_pid emptyProcTable 1 rfl

end TaskManagerModel
